import Mathlib

/-!
Verification of the TechNova Digital Assistant query-resolution service
(src/main.py): a single HTTP endpoint that matches a natural-language query
against an ordered rule table of regular expressions, coerces the captured
groups to declared types, and returns a structured function-call descriptor.

The embedding models the fragment of Python's `re` module actually used by
the rule table: literal characters, the character classes `\d`, `[\d\-]`,
`[\d:]` and `.` (any character except a newline), the quantifiers `+`,
`{4}` and `*` (greedy, with backtracking), and capture groups each wrapping
a single quantified class.  `pattern.match(q)` anchors at position 0 and
does not require the whole string to be consumed (prefix match).
-/

namespace TechNova

/-- Character classes occurring in the rule patterns: `\d`, `[\d\-]`,
`[\d:]`.  `\d` is modelled as the ASCII digits (all queries and patterns in
the rule table are ASCII). -/
inductive CharCls where
  | digit
  | digitDash
  | digitColon
deriving DecidableEq

def CharCls.mem : CharCls → Char → Bool
  | .digit, c => c.isDigit
  | .digitDash, c => c.isDigit || c = '-'
  | .digitColon, c => c.isDigit || c = ':'

/-- The shapes of capture groups occurring in the rule patterns:
`(cls+)`, `(cls{n})` and `(.*)`. -/
inductive GrpKind where
  | plusCls (cls : CharCls)
  | exactly (cls : CharCls) (n : Nat)
  | star
deriving DecidableEq

/-- One element of a compiled pattern: a literal character or a capture
group. -/
inductive RItem where
  | lit (c : Char)
  | grp (g : GrpKind)
deriving DecidableEq

/-- Length of the longest prefix of `s` lying in the class `cls`: the
largest amount a greedy `cls+` or the bound for `cls{n}` can consume. -/
def clsRun (cls : CharCls) (s : List Char) : Nat :=
  (s.takeWhile cls.mem).length

/-- Length of the longest prefix of `s` without a newline: the largest
amount a greedy `.*` can consume (Python `.` matches anything but `\n`). -/
def dotRun (s : List Char) : Nat :=
  (s.takeWhile (fun c => c ≠ '\n')).length

/-- `candLens lo hi = [hi, hi-1, ..., lo]`: the candidate consumption
lengths of a greedy quantifier, longest first (backtracking order). -/
def candLens (lo : Nat) : Nat → List Nat
  | 0 => if lo = 0 then [0] else []
  | hi + 1 => if lo ≤ hi + 1 then (hi + 1) :: candLens lo hi else []

/-- Match a compiled pattern against `s` anchored at position 0, Python
`re.match` style: succeeds on any prefix of `s`, quantifiers are greedy
with backtracking.  Returns the list of captured substrings in group
order. -/
def matchItems : List RItem → List Char → Option (List String)
  | [], _ => some []
  | .lit _ :: _, [] => none
  | .lit c :: rest, d :: s => if d = c then matchItems rest s else none
  | .grp (.exactly cls n) :: rest, s =>
      if n ≤ clsRun cls s then
        (matchItems rest (s.drop n)).map (fun caps => String.mk (s.take n) :: caps)
      else none
  | .grp (.plusCls cls) :: rest, s =>
      (candLens 1 (clsRun cls s)).findSome? (fun len =>
        (matchItems rest (s.drop len)).map (fun caps => String.mk (s.take len) :: caps))
  | .grp .star :: rest, s =>
      (candLens 0 (dotRun s)).findSome? (fun len =>
        (matchItems rest (s.drop len)).map (fun caps => String.mk (s.take len) :: caps))

/-- A run of literal pattern characters, e.g. the compiled form of the
regex fragment `What is the status of ticket `. -/
def lits (s : String) : List RItem := s.data.map RItem.lit

/-- The argument type tags of the rule table: Python's `int` and `str`
used as coercion functions. -/
inductive PyType where
  | int
  | str
deriving DecidableEq

/-- A coerced argument value. -/
inductive PyVal where
  | int (n : Int)
  | str (s : String)
deriving DecidableEq

/-- Whitespace stripped by Python's `int(str)` before parsing. -/
def isPySpace (c : Char) : Bool :=
  c = ' ' || c = '\t' || c = '\n' || c = '\r' || c = '\x0b' || c = '\x0c'

def stripPy (l : List Char) : List Char :=
  ((l.dropWhile isPySpace).reverse.dropWhile isPySpace).reverse

/-- Numeric value of a digit run, ignoring underscore separators. -/
def digitsVal (l : List Char) : Nat :=
  l.foldl (fun acc c => if c = '_' then acc else acc * 10 + (c.toNat - '0'.toNat)) 0

/-- Whether a list starts with a digit (an underscore must be followed by
a digit inside a Python integer literal). -/
def nextDigitOk : List Char → Bool
  | [] => false
  | d :: _ => d.isDigit

/-- Continuation of a valid Python integer literal body after its first
digit: digits with single underscores allowed only between digits. -/
def underscoredTail : List Char → Bool
  | [] => true
  | c :: rest =>
      if c = '_' then nextDigitOk rest && underscoredTail rest
      else c.isDigit && underscoredTail rest

/-- A valid Python integer literal body: a digit followed by digits with
single underscores between digits. -/
def validUnderscored : List Char → Bool
  | [] => false
  | c :: rest => c.isDigit && underscoredTail rest

/-- Python's `int(s)` on a decimal string: strip surrounding whitespace,
allow one sign, then a digit run with underscore separators; `none` models
the `ValueError` raised on anything else (ASCII fragment). -/
def pyInt (s : String) : Option Int :=
  match stripPy s.data with
  | '+' :: rest => if validUnderscored rest then some (digitsVal rest : Nat) else none
  | '-' :: rest => if validUnderscored rest then some (-(digitsVal rest : Nat) : Int) else none
  | l => if validUnderscored l then some (digitsVal l : Nat) else none

/-- Apply one argument type to one captured substring, as
`arg_types[i](extracted_values[i])` does; `none` models `ValueError`. -/
def coerce : PyType → String → Option PyVal
  | .int, v => (pyInt v).map PyVal.int
  | .str, v => some (PyVal.str v)

/-- The coercion loop of `execute_query`: for each argument name in order,
index into the type list and the captured values and coerce.  `none`
models the caught `(ValueError, IndexError)`. -/
def coerceArgs : List String → List PyType → List String → Option (List (String × PyVal))
  | [], _, _ => some []
  | n :: ns, t :: ts, v :: vs =>
      match coerce t v with
      | some val => (coerceArgs ns ts vs).map (fun args => (n, val) :: args)
      | none => none
  | _ :: _, _, _ => none

/-- One entry of `FUNCTION_RULES`:
`(regex_pattern, function_name, [arg_names], [arg_types])`. -/
structure Rule where
  pattern : List RItem
  functionName : String
  argNames : List String
  argTypes : List PyType
deriving DecidableEq

/-- `re.compile(r"What is the status of ticket (\d+)\?")` →
`get_ticket_status`. -/
def ticketRule : Rule :=
  { pattern := lits "What is the status of ticket " ++ [.grp (.plusCls .digit), .lit '?']
    functionName := "get_ticket_status"
    argNames := ["ticket_id"]
    argTypes := [.int] }

/-- `re.compile(r"Schedule a meeting on ([\d\-]+) at ([\d:]+) in (.*)\.")` →
`schedule_meeting`. -/
def meetingRule : Rule :=
  { pattern := lits "Schedule a meeting on " ++ [.grp (.plusCls .digitDash)] ++
      lits " at " ++ [.grp (.plusCls .digitColon)] ++ lits " in " ++ [.grp .star, .lit '.']
    functionName := "schedule_meeting"
    argNames := ["date", "time", "meeting_room"]
    argTypes := [.str, .str, .str] }

/-- `re.compile(r"Show my expense balance for employee (\d+)\.")` →
`get_expense_balance`. -/
def expenseRule : Rule :=
  { pattern := lits "Show my expense balance for employee " ++ [.grp (.plusCls .digit), .lit '.']
    functionName := "get_expense_balance"
    argNames := ["employee_id"]
    argTypes := [.int] }

/-- `re.compile(r"Calculate performance bonus for employee (\d+) for (\d{4})\.")` →
`calculate_performance_bonus`. -/
def bonusRule : Rule :=
  { pattern := lits "Calculate performance bonus for employee " ++ [.grp (.plusCls .digit)] ++
      lits " for " ++ [.grp (.exactly .digit 4), .lit '.']
    functionName := "calculate_performance_bonus"
    argNames := ["employee_id", "current_year"]
    argTypes := [.int, .int] }

/-- `re.compile(r"Report office issue (\d+) for the (.*) department\.")` →
`report_office_issue`. -/
def issueRule : Rule :=
  { pattern := lits "Report office issue " ++ [.grp (.plusCls .digit)] ++
      lits " for the " ++ [.grp .star] ++ lits " department."
    functionName := "report_office_issue"
    argNames := ["issue_code", "department"]
    argTypes := [.int, .str] }

/-- The ordered rule table `FUNCTION_RULES` of `src/main.py`. -/
def FUNCTION_RULES : List Rule :=
  [ticketRule, meetingRule, expenseRule, bonusRule, issueRule]

/-- The spec's failure taxonomy for the engine. -/
inductive FailureReason where
  | noMatch
  | typeMismatch
deriving DecidableEq

/-- The spec's `MatchResult`: the outcome of the engine on one query. -/
inductive MatchResult where
  | success (functionName : String) (arguments : List (String × PyVal))
  | failure (reason : FailureReason)
deriving DecidableEq

/-- The engine: the rule loop of `execute_query`.  Iterate the table in
order; on the first rule whose pattern matches, coerce the captured
groups (a coercion failure stops the scan), otherwise keep scanning. -/
def resolve : List Rule → String → MatchResult
  | [], _ => .failure .noMatch
  | r :: rest, q =>
      match matchItems r.pattern q.data with
      | some caps =>
          match coerceArgs r.argNames r.argTypes caps with
          | some args => .success r.functionName args
          | none => .failure .typeMismatch
      | none => resolve rest q

def hexDigit (n : Nat) : Char :=
  if n < 10 then Char.ofNat ('0'.toNat + n) else Char.ofNat ('a'.toNat + (n - 10))

/-- A `\uXXXX` escape. -/
def uEscape (n : Nat) : List Char :=
  ['\\', 'u', hexDigit (n / 4096 % 16), hexDigit (n / 256 % 16),
   hexDigit (n / 16 % 16), hexDigit (n % 16)]

/-- `json.dumps` escaping of one character (default `ensure_ascii=True`). -/
def escapeChar (c : Char) : List Char :=
  if c = '\\' then ['\\', '\\']
  else if c = '"' then ['\\', '"']
  else if c = '\n' then ['\\', 'n']
  else if c = '\t' then ['\\', 't']
  else if c = '\r' then ['\\', 'r']
  else if c = '\x08' then ['\\', 'b']
  else if c = '\x0c' then ['\\', 'f']
  else if c.toNat < 0x20 then uEscape c.toNat
  else if c.toNat < 0x80 then [c]
  else if c.toNat < 0x10000 then uEscape c.toNat
  else uEscape (0xd800 + (c.toNat - 0x10000) / 1024) ++
       uEscape (0xdc00 + (c.toNat - 0x10000) % 1024)

/-- `json.dumps` of a string value. -/
def jsonStrChars (s : String) : List Char :=
  '"' :: s.data.foldr (fun c acc => escapeChar c ++ acc) ['"']

/-- `json.dumps` of one argument value. -/
def dumpVal : PyVal → List Char
  | .int n => (toString n).data
  | .str s => jsonStrChars s

/-- `json.dumps(arguments)` for the ordered argument dict: keys appear in
insertion order, default separators. -/
def jsonDumps (args : List (String × PyVal)) : String :=
  String.mk ('\x7b' ::
    (List.intercalate [',', ' ']
      (args.map (fun p => jsonStrChars p.1 ++ [':', ' '] ++ dumpVal p.2)) ++ ['\x7d']))

/-- A FastAPI `HTTPException(status_code, detail)`. -/
structure HTTPException where
  status_code : Nat
  detail : String
deriving DecidableEq

/-- The success body `{"name": func_name, "arguments": json.dumps(arguments)}`:
the `arguments` field is a `String`, not a structured value (the mapping is
double-encoded). -/
structure FunctionCall where
  name : String
  arguments : String
deriving DecidableEq

/-- Outcome of one request to `GET /execute`. -/
inductive HTTPResponse where
  | ok (body : FunctionCall)
  | error (e : HTTPException)
deriving DecidableEq

/-- The endpoint `execute_query` of `src/main.py`, for an arbitrary rule
table.  `q = none` models a request without the `q` query parameter. -/
def execute_query (rules : List Rule) (q : Option String) : HTTPResponse :=
  match q with
  | none => .error ⟨400, "Missing query parameter 'q'"⟩
  | some q =>
      match resolve rules q with
      | .success fn args => .ok ⟨fn, jsonDumps args⟩
      | .failure .typeMismatch => .error ⟨400, "Parameter type mismatch"⟩
      | .failure .noMatch => .error ⟨404, "No matching function found for the query"⟩

/-- The capture groups of a pattern, in order. -/
def groupKinds (pat : List RItem) : List GrpKind :=
  pat.filterMap (fun it => match it with | .grp g => some g | .lit _ => none)

/-- What the matcher guarantees about the substring captured by each kind
of group. -/
def capOk : GrpKind → String → Prop
  | .plusCls cls, cap => cap.data ≠ [] ∧ cap.data.all cls.mem = true
  | .exactly cls n, cap => cap.data.length = n ∧ cap.data.all cls.mem = true
  | .star, _ => True

/-- A custom rule overlapping rule 1 on ticket queries (no overlap exists
in the default table, so first-match-wins is exercised on a custom
table). -/
def overlapRule : Rule :=
  { pattern := lits "What is the status of " ++ [.grp .star]
    functionName := "status_catchall"
    argNames := ["text"]
    argTypes := [.str] }

/-- A custom rule whose single `(.*)` capture is declared `integer`, so
its coercion fails on non-numeric text (the default table cannot fail
coercion, so the mismatch path is exercised on a custom table). -/
def starIntRule : Rule :=
  { pattern := [.grp .star]
    functionName := "parse_number"
    argNames := ["value"]
    argTypes := [.int] }

/-! ### Generic helpers about the greedy search -/

theorem findSome_eq_some_mem {α β : Type} {f : α → Option β} :
    ∀ {l : List α} {b : β}, l.findSome? f = some b → ∃ a ∈ l, f a = some b := by
  intro l
  induction l with
  | nil => intro b h; simp [List.findSome?_nil] at h
  | cons a as ih =>
      intro b h
      rw [List.findSome?_cons] at h
      cases hfa : f a with
      | some c =>
          rw [hfa] at h
          exact ⟨a, List.mem_cons_self a as, hfa.trans h⟩
      | none =>
          rw [hfa] at h
          obtain ⟨x, hx, hfx⟩ := ih h
          exact ⟨x, List.mem_cons_of_mem a hx, hfx⟩

theorem mem_candLens {lo : Nat} :
    ∀ {hi x : Nat}, x ∈ candLens lo hi → lo ≤ x ∧ x ≤ hi := by
  intro hi
  induction hi with
  | zero =>
      intro x hx
      by_cases h : lo = 0
      · simp [candLens, h] at hx
        omega
      · simp [candLens, h] at hx
  | succ n ih =>
      intro x hx
      by_cases h : lo ≤ n + 1
      · simp only [candLens, if_pos h] at hx
        rcases List.mem_cons.mp hx with h1 | h1
        · omega
        · have := ih h1
          omega
      · simp only [candLens, if_neg h] at hx
        simp at hx

/-- The greedy search over candidate lengths (longest first) returns the
result at the largest length that succeeds. -/
theorem findSome_cand_max {β : Type} (f : Nat → Option β) (lo : Nat) :
    ∀ (hi target : Nat) (b : β), lo ≤ target → target ≤ hi →
    (∀ len, target < len → len ≤ hi → f len = none) →
    f target = some b →
    (candLens lo hi).findSome? f = some b := by
  intro hi
  induction hi with
  | zero =>
      intro target b h1 h2 _ h4
      have ht : target = 0 := Nat.le_zero.mp h2
      subst ht
      have hlo : lo = 0 := Nat.le_zero.mp h1
      simp [candLens, hlo, List.findSome?_cons, h4]
  | succ n ih =>
      intro target b h1 h2 h3 h4
      have hlo : lo ≤ n + 1 := Nat.le_trans h1 h2
      rcases Nat.lt_or_ge target (n + 1) with hlt | hge
      · have hn : f (n + 1) = none := h3 (n + 1) hlt (Nat.le_refl _)
        simp only [candLens, if_pos hlo, List.findSome?_cons, hn]
        exact ih target b h1 (by omega) (fun len hl hh => h3 len hl (by omega)) h4
      · have ht : target = n + 1 := by omega
        subst ht
        simp [candLens, hlo, List.findSome?_cons, h4]

theorem takeWhile_length_le (p : Char → Bool) :
    ∀ s : List Char, (s.takeWhile p).length ≤ s.length := by
  intro s
  induction s with
  | nil => simp
  | cons c t ih =>
      rw [List.takeWhile_cons]
      by_cases hc : p c
      · simp only [if_pos hc, List.length_cons]
        omega
      · simp [if_neg hc]

theorem all_take_of_le_takeWhile {p : Char → Bool} :
    ∀ {s : List Char} {len : Nat}, len ≤ (s.takeWhile p).length →
    (s.take len).all p = true := by
  intro s
  induction s with
  | nil => intro len _; simp
  | cons c t ih =>
      intro len h
      cases len with
      | zero => simp
      | succ k =>
          rw [List.takeWhile_cons] at h
          by_cases hc : p c
          · rw [if_pos hc, List.length_cons] at h
            rw [List.take_succ_cons, List.all_cons, hc, Bool.true_and]
            exact ih (by omega)
          · rw [if_neg hc] at h
            simp at h

/-! ### Integer coercion on all-digit captures -/

theorem digit_not_pySpace {c : Char} (h : c.isDigit = true) : isPySpace c = false := by
  rcases Bool.eq_false_or_eq_true (isPySpace c) with ht | hf
  swap
  · exact hf
  · exfalso
    simp only [isPySpace, Bool.or_eq_true, decide_eq_true_eq, or_assoc] at ht
    rcases ht with h1 | h1 | h1 | h1 | h1 | h1 <;> subst h1 <;> exact absurd h (by decide)

theorem dropWhile_eq_self_of_head {p : Char → Bool} :
    ∀ {l : List Char}, (∀ c ∈ l, p c = false) → l.dropWhile p = l := by
  intro l h
  cases l with
  | nil => rfl
  | cons c t =>
      rw [List.dropWhile_cons, if_neg]
      rw [h c (List.mem_cons_self c t)]
      simp

theorem stripPy_digits {l : List Char} (h : l.all Char.isDigit = true) :
    stripPy l = l := by
  have hns : ∀ c ∈ l, isPySpace c = false := by
    intro c hc
    exact digit_not_pySpace (by rw [List.all_eq_true] at h; exact h c hc)
  unfold stripPy
  rw [dropWhile_eq_self_of_head hns,
      dropWhile_eq_self_of_head (fun c hc => hns c (List.mem_reverse.mp hc)),
      List.reverse_reverse]

theorem underscoredTail_digits :
    ∀ {l : List Char}, l.all Char.isDigit = true → underscoredTail l = true := by
  intro l
  induction l with
  | nil => intro _; rfl
  | cons c t ih =>
      intro h
      rw [List.all_cons, Bool.and_eq_true] at h
      have hne : c ≠ '_' := by
        intro e
        subst e
        exact absurd h.1 (by decide)
      rw [underscoredTail, if_neg hne, h.1, Bool.true_and]
      exact ih h.2

theorem pyInt_all_digits {s : String} (hne : s.data ≠ [])
    (hd : s.data.all Char.isDigit = true) : ∃ n : Int, pyInt s = some n := by
  have hstrip : stripPy s.data = s.data := stripPy_digits hd
  unfold pyInt
  rw [hstrip]
  cases hl : s.data with
  | nil => exact absurd hl hne
  | cons c t =>
      rw [hl] at hd
      rw [List.all_cons, Bool.and_eq_true] at hd
      have hplus : c ≠ '+' := by intro e; subst e; exact absurd hd.1 (by decide)
      have hminus : c ≠ '-' := by intro e; subst e; exact absurd hd.1 (by decide)
      have hvalid : validUnderscored (c :: t) = true := by
        rw [validUnderscored, hd.1, Bool.true_and]
        exact underscoredTail_digits hd.2
      refine ⟨(digitsVal (c :: t) : Nat), ?_⟩
      split
      · rename_i rest heq
        injection heq with hc _
        exact absurd hc hplus
      · rename_i rest heq
        injection heq with hc _
        exact absurd hc hminus
      · rw [if_pos hvalid]

/-- A successful run of the coercion loop produces the argument mapping
with keys exactly the declared argument names, in order. -/
theorem coerceArgs_keys :
    ∀ {ns : List String} {ts : List PyType} {vs : List String}
      {args : List (String × PyVal)},
    coerceArgs ns ts vs = some args → args.map Prod.fst = ns := by
  intro ns
  induction ns with
  | nil =>
      intro ts vs args h
      simp [coerceArgs] at h
      subst h
      rfl
  | cons n ns ih =>
      intro ts vs args h
      cases ts with
      | nil => simp [coerceArgs] at h
      | cons t ts =>
          cases vs with
          | nil => simp [coerceArgs] at h
          | cons v vs =>
              rw [coerceArgs] at h
              cases hc : coerce t v with
              | none => rw [hc] at h; simp at h
              | some val =>
                  rw [hc] at h
                  cases hr : coerceArgs ns ts vs with
                  | none => rw [hr] at h; simp at h
                  | some args2 =>
                      rw [hr] at h
                      simp only [Option.map_some'] at h
                      have : (n, val) :: args2 = args := Option.some.inj h
                      subst this
                      simp only [List.map_cons]
                      rw [ih hr]

/-! ### Shape of the captured groups of a successful match -/

theorem clsRun_le_length (cls : CharCls) (s : List Char) : clsRun cls s ≤ s.length :=
  takeWhile_length_le _ s

/-- Captured substrings of a successful match satisfy, position by
position, the guarantee of the group that produced them: a `cls+` capture
is a nonempty string over `cls`, a `cls{n}` capture has length `n` over
`cls`. -/
theorem matchItems_caps :
    ∀ (pat : List RItem) (s : List Char) (caps : List String),
    matchItems pat s = some caps → List.Forall₂ capOk (groupKinds pat) caps := by
  intro pat
  induction pat with
  | nil =>
      intro s caps h
      have hc : [] = caps := Option.some.inj h
      subst hc
      exact List.Forall₂.nil
  | cons it rest ih =>
      intro s caps h
      cases it with
      | lit c =>
          cases s with
          | nil => simp [matchItems] at h
          | cons d s2 =>
              simp only [matchItems] at h
              by_cases hdc : d = c
              · rw [if_pos hdc] at h
                have := ih s2 caps h
                simpa [groupKinds] using this
              · rw [if_neg hdc] at h
                exact absurd h (by simp)
      | grp g =>
          cases g with
          | exactly cls n =>
              simp only [matchItems] at h
              by_cases hn : n ≤ clsRun cls s
              · rw [if_pos hn] at h
                rcases Option.map_eq_some'.mp h with ⟨caps2, hm, hcaps⟩
                subst hcaps
                rw [show groupKinds (RItem.grp (GrpKind.exactly cls n) :: rest) =
                      GrpKind.exactly cls n :: groupKinds rest from by simp [groupKinds]]
                refine List.Forall₂.cons ⟨?_, ?_⟩ (ih _ _ hm)
                · show (s.take n).length = n
                  rw [List.length_take]
                  have := clsRun_le_length cls s
                  omega
                · exact all_take_of_le_takeWhile hn
              · rw [if_neg hn] at h
                exact absurd h (by simp)
          | plusCls cls =>
              simp only [matchItems] at h
              obtain ⟨len, hlen, hf⟩ := findSome_eq_some_mem h
              obtain ⟨h1, h2⟩ := mem_candLens hlen
              rcases Option.map_eq_some'.mp hf with ⟨caps2, hm, hcaps⟩
              subst hcaps
              rw [show groupKinds (RItem.grp (GrpKind.plusCls cls) :: rest) =
                    GrpKind.plusCls cls :: groupKinds rest from by simp [groupKinds]]
              refine List.Forall₂.cons ⟨?_, ?_⟩ (ih _ _ hm)
              · show (s.take len) ≠ []
                have hsl : len ≤ s.length := le_trans h2 (clsRun_le_length cls s)
                intro e
                have hlen0 : (s.take len).length = 0 := by rw [e]; rfl
                rw [List.length_take] at hlen0
                omega
              · exact all_take_of_le_takeWhile h2
          | star =>
              simp only [matchItems] at h
              obtain ⟨len, hlen, hf⟩ := findSome_eq_some_mem h
              rcases Option.map_eq_some'.mp hf with ⟨caps2, hm, hcaps⟩
              subst hcaps
              rw [show groupKinds (RItem.grp GrpKind.star :: rest) =
                    GrpKind.star :: groupKinds rest from by simp [groupKinds]]
              exact List.Forall₂.cons trivial (ih _ _ hm)

/-! ### The rule loop -/

/-- Rules before the first one whose pattern matches do not affect the
result of the scan. -/
theorem resolve_append_first_match (t1 t2 : List Rule) (r : Rule) (q : String)
    (h1 : ∀ r1 ∈ t1, matchItems r1.pattern q.data = none) :
    resolve (t1 ++ r :: t2) q = resolve (r :: t2) q := by
  induction t1 with
  | nil => rfl
  | cons a t1 ih =>
      rw [List.cons_append]
      rw [show resolve (a :: (t1 ++ r :: t2)) q = resolve (t1 ++ r :: t2) q from by
        simp [resolve, h1 a (List.mem_cons_self a t1)]]
      exact ih (fun r1 hr1 => h1 r1 (List.mem_cons_of_mem a hr1))

/-- On a rule whose pattern matches, the scan stops: the result is that
rule's coercion outcome, whatever follows in the table. -/
theorem resolve_cons_match (t2 : List Rule) (r : Rule) (q : String)
    (caps : List String) (h : matchItems r.pattern q.data = some caps) :
    resolve (r :: t2) q =
      match coerceArgs r.argNames r.argTypes caps with
      | some args => .success r.functionName args
      | none => .failure .typeMismatch := by
  simp [resolve, h]

/-! ### The default table cannot produce a type mismatch -/

theorem coerce_int_digitcls (cap : String) (h1 : cap.data ≠ [])
    (h2 : cap.data.all (CharCls.mem CharCls.digit) = true) :
    ∃ n : Int, coerce .int cap = some (.int n) := by
  have he : CharCls.mem CharCls.digit = Char.isDigit := funext fun c => rfl
  rw [he] at h2
  obtain ⟨n, hn⟩ := pyInt_all_digits h1 h2
  exact ⟨n, by simp [coerce, hn]⟩

theorem ticket_no_mismatch (s : List Char) (caps : List String)
    (h : matchItems ticketRule.pattern s = some caps) :
    ∃ args, coerceArgs ticketRule.argNames ticketRule.argTypes caps = some args := by
  have hf := matchItems_caps _ _ _ h
  rw [show groupKinds ticketRule.pattern = [GrpKind.plusCls CharCls.digit] from rfl] at hf
  obtain ⟨cap, caps2, hcap, htail, rfl⟩ := List.forall₂_cons_left_iff.mp hf
  obtain rfl := List.forall₂_nil_left_iff.mp htail
  obtain ⟨hne, hall⟩ := hcap
  obtain ⟨n, hn⟩ := coerce_int_digitcls cap hne hall
  exact ⟨[("ticket_id", .int n)], by simp [ticketRule, coerceArgs, hn]⟩

theorem meeting_no_mismatch (s : List Char) (caps : List String)
    (h : matchItems meetingRule.pattern s = some caps) :
    ∃ args, coerceArgs meetingRule.argNames meetingRule.argTypes caps = some args := by
  have hf := matchItems_caps _ _ _ h
  rw [show groupKinds meetingRule.pattern =
        [GrpKind.plusCls CharCls.digitDash, GrpKind.plusCls CharCls.digitColon,
         GrpKind.star] from rfl] at hf
  obtain ⟨c1, caps2, _, htail, rfl⟩ := List.forall₂_cons_left_iff.mp hf
  obtain ⟨c2, caps3, _, htail2, rfl⟩ := List.forall₂_cons_left_iff.mp htail
  obtain ⟨c3, caps4, _, htail3, rfl⟩ := List.forall₂_cons_left_iff.mp htail2
  obtain rfl := List.forall₂_nil_left_iff.mp htail3
  exact ⟨[("date", .str c1), ("time", .str c2), ("meeting_room", .str c3)], rfl⟩

theorem expense_no_mismatch (s : List Char) (caps : List String)
    (h : matchItems expenseRule.pattern s = some caps) :
    ∃ args, coerceArgs expenseRule.argNames expenseRule.argTypes caps = some args := by
  have hf := matchItems_caps _ _ _ h
  rw [show groupKinds expenseRule.pattern = [GrpKind.plusCls CharCls.digit] from rfl] at hf
  obtain ⟨cap, caps2, hcap, htail, rfl⟩ := List.forall₂_cons_left_iff.mp hf
  obtain rfl := List.forall₂_nil_left_iff.mp htail
  obtain ⟨hne, hall⟩ := hcap
  obtain ⟨n, hn⟩ := coerce_int_digitcls cap hne hall
  exact ⟨[("employee_id", .int n)], by simp [expenseRule, coerceArgs, hn]⟩

theorem bonus_no_mismatch (s : List Char) (caps : List String)
    (h : matchItems bonusRule.pattern s = some caps) :
    ∃ args, coerceArgs bonusRule.argNames bonusRule.argTypes caps = some args := by
  have hf := matchItems_caps _ _ _ h
  rw [show groupKinds bonusRule.pattern =
        [GrpKind.plusCls CharCls.digit, GrpKind.exactly CharCls.digit 4] from rfl] at hf
  obtain ⟨c1, caps2, hcap1, htail, rfl⟩ := List.forall₂_cons_left_iff.mp hf
  obtain ⟨c2, caps3, hcap2, htail2, rfl⟩ := List.forall₂_cons_left_iff.mp htail
  obtain rfl := List.forall₂_nil_left_iff.mp htail2
  obtain ⟨hne1, hall1⟩ := hcap1
  obtain ⟨hlen2, hall2⟩ := hcap2
  have hne2 : c2.data ≠ [] := by
    intro e
    rw [e] at hlen2
    exact absurd hlen2 (by decide)
  obtain ⟨n1, hn1⟩ := coerce_int_digitcls c1 hne1 hall1
  obtain ⟨n2, hn2⟩ := coerce_int_digitcls c2 hne2 hall2
  exact ⟨[("employee_id", .int n1), ("current_year", .int n2)],
    by simp [bonusRule, coerceArgs, hn1, hn2]⟩

theorem issue_no_mismatch (s : List Char) (caps : List String)
    (h : matchItems issueRule.pattern s = some caps) :
    ∃ args, coerceArgs issueRule.argNames issueRule.argTypes caps = some args := by
  have hf := matchItems_caps _ _ _ h
  rw [show groupKinds issueRule.pattern =
        [GrpKind.plusCls CharCls.digit, GrpKind.star] from rfl] at hf
  obtain ⟨c1, caps2, hcap1, htail, rfl⟩ := List.forall₂_cons_left_iff.mp hf
  obtain ⟨c2, caps3, _, htail2, rfl⟩ := List.forall₂_cons_left_iff.mp htail
  obtain rfl := List.forall₂_nil_left_iff.mp htail2
  obtain ⟨hne1, hall1⟩ := hcap1
  obtain ⟨n1, hn1⟩ := coerce_int_digitcls c1 hne1 hall1
  exact ⟨[("issue_code", .int n1), ("department", .str c2)],
    by simp [issueRule, coerceArgs, hn1]; rfl⟩

/-- A scan over rules none of which can fail coercion ends in `noMatch`
or a success. -/
theorem resolve_success_cases :
    ∀ (rules : List Rule) (q : String),
    (∀ r ∈ rules, ∀ caps, matchItems r.pattern q.data = some caps →
      ∃ args, coerceArgs r.argNames r.argTypes caps = some args) →
    resolve rules q = .failure .noMatch ∨
      ∃ fn args, resolve rules q = .success fn args := by
  intro rules q
  induction rules with
  | nil => intro _; left; rfl
  | cons r rest ih =>
      intro h
      cases hm : matchItems r.pattern q.data with
      | none =>
          rw [show resolve (r :: rest) q = resolve rest q from by simp [resolve, hm]]
          exact ih (fun r2 hr2 => h r2 (List.mem_cons_of_mem r hr2))
      | some caps =>
          obtain ⟨args, hargs⟩ := h r (List.mem_cons_self r rest) caps hm
          right
          exact ⟨r.functionName, args, by simp [resolve, hm, hargs]⟩

/-! ### Symbolic evaluation of the matcher -/

theorem matchItems_lit_eq (c : Char) (rest : List RItem) (s : List Char) :
    matchItems (.lit c :: rest) (c :: s) = matchItems rest s := by
  simp [matchItems]

theorem matchItems_lit_ne {c d : Char} (h : d ≠ c) (rest : List RItem) (s : List Char) :
    matchItems (.lit c :: rest) (d :: s) = none := by
  simp [matchItems, h]

/-- Consuming a literal run: matching `l` as literals against `l ++ s`
proceeds to the remaining items on `s`. -/
theorem matchItems_lits_append :
    ∀ (l : List Char) (items : List RItem) (s : List Char),
    matchItems (l.map RItem.lit ++ items) (l ++ s) = matchItems items s := by
  intro l
  induction l with
  | nil => intro items s; rfl
  | cons c t ih =>
      intro items s
      rw [List.map_cons, List.cons_append, List.cons_append, matchItems_lit_eq]
      exact ih items s

/-- A literal run cannot match inside a string shorter than itself. -/
theorem matchItems_lits_short :
    ∀ (l : List Char) (s : List Char), s.length < l.length →
    matchItems (l.map RItem.lit) s = none := by
  intro l
  induction l with
  | nil => intro s h; simp at h
  | cons c t ih =>
      intro s h
      cases s with
      | nil => rfl
      | cons d s2 =>
          rw [List.map_cons]
          by_cases hdc : d = c
          · subst hdc
            rw [matchItems_lit_eq]
            exact ih s2 (by simp only [List.length_cons] at h; omega)
          · exact matchItems_lit_ne hdc _ _

theorem takeWhile_append_of_all {p : Char → Bool} :
    ∀ (l s : List Char), l.all p = true →
    List.takeWhile p (l ++ s) = l ++ List.takeWhile p s := by
  intro l
  induction l with
  | nil => intro s _; rfl
  | cons c t ih =>
      intro s h
      rw [List.all_cons, Bool.and_eq_true] at h
      rw [List.cons_append, List.takeWhile_cons, if_pos h.1, ih s h.2, List.cons_append]

theorem clsRun_append (cls : CharCls) (dd : List Char) (c : Char) (t : List Char)
    (h1 : dd.all cls.mem = true) (h2 : cls.mem c = false) :
    clsRun cls (dd ++ c :: t) = dd.length := by
  unfold clsRun
  rw [takeWhile_append_of_all dd (c :: t) h1, List.takeWhile_cons, h2]
  simp

theorem dotRun_eq_length (s : List Char) (h : s.all (fun c => c ≠ '\n') = true) :
    dotRun s = s.length := by
  unfold dotRun
  rw [List.takeWhile_eq_self_iff.mpr (fun x hx => List.all_eq_true.mp h x hx)]

/-- Evaluating a greedy `cls+` group whose capture is the run `dd`
followed by a character outside the class: the group consumes exactly
`dd` and matching continues at the delimiter. -/
theorem matchItems_plus_front (cls : CharCls) (rest : List RItem)
    (dd : List Char) (c : Char) (t : List Char) (caps : List String)
    (h1 : dd.all cls.mem = true) (h2 : cls.mem c = false) (h3 : dd ≠ [])
    (h4 : matchItems rest (c :: t) = some caps) :
    matchItems (.grp (.plusCls cls) :: rest) (dd ++ c :: t) =
      some (String.mk dd :: caps) := by
  have hlen : 1 ≤ dd.length := by
    cases dd with
    | nil => exact absurd rfl h3
    | cons _ _ => simp
  simp only [matchItems]
  rw [clsRun_append cls dd c t h1 h2]
  apply findSome_cand_max _ 1 dd.length dd.length _ hlen (Nat.le_refl _)
  · intro len hl hh
    exact absurd (Nat.lt_of_lt_of_le hl hh) (Nat.lt_irrefl _)
  · rw [List.drop_left, List.take_left, h4]
    rfl

/-- Evaluating a greedy `(.*)` group followed only by the literal run `L`:
the group backtracks to the last position from which `L` matches, i.e. it
captures everything up to the final copy of `L`. -/
theorem matchItems_star_lits (r L : List Char)
    (hr : r.all (fun c => c ≠ '\n') = true) (hL : L.all (fun c => c ≠ '\n') = true)
    (hne : L ≠ []) :
    matchItems (.grp .star :: L.map RItem.lit) (r ++ L) = some [String.mk r] := by
  simp only [matchItems]
  rw [dotRun_eq_length (r ++ L) (by rw [List.all_append, hr, hL]; rfl),
      List.length_append]
  apply findSome_cand_max _ 0 (r.length + L.length) r.length [String.mk r]
    (Nat.zero_le _) (Nat.le_add_right _ _)
  · intro len hl hh
    have hlen : ((r ++ L).drop len).length < L.length := by
      rw [List.length_drop, List.length_append]
      have hLpos : 0 < L.length := List.length_pos.mpr hne
      omega
    rw [matchItems_lits_short L _ hlen]
    rfl
  · rw [List.drop_left, List.take_left]
    have hLmatch : matchItems (L.map RItem.lit) L = some [] := by
      have h0 := matchItems_lits_append L [] []
      rw [List.append_nil, List.append_nil] at h0
      exact h0
    rw [hLmatch]
    rfl

/-- Rule 2 on a schedule query whose room text contains an inner period:
the `(.*)` capture runs to the last period. -/
theorem meeting_match (a b : List Char)
    (ha : a.all (fun c => c ≠ '\n') = true) (hb : b.all (fun c => c ≠ '\n') = true) :
    matchItems meetingRule.pattern
      ("Schedule a meeting on ".data ++ ("2025-02-15".data ++ (' ' :: ("at ".data ++
        ("14:00".data ++ (' ' :: ("in ".data ++ ((a ++ '.' :: b) ++ ['.'])))))))) =
      some ["2025-02-15", "14:00", String.mk (a ++ '.' :: b)] := by
  rw [show meetingRule.pattern =
        "Schedule a meeting on ".data.map RItem.lit ++
          (.grp (.plusCls .digitDash) :: (" at ".data.map RItem.lit ++
            (.grp (.plusCls .digitColon) :: (" in ".data.map RItem.lit ++
              [.grp .star, .lit '.'])))) from rfl,
      matchItems_lits_append]
  have h_star : matchItems [RItem.grp GrpKind.star, RItem.lit '.']
      ((a ++ '.' :: b) ++ ['.']) = some [String.mk (a ++ '.' :: b)] :=
    matchItems_star_lits (a ++ '.' :: b) ['.']
      (by rw [List.all_append, ha, List.all_cons, hb]; decide) (by decide) (by decide)
  have h_in : matchItems
      (" in ".data.map RItem.lit ++ [RItem.grp GrpKind.star, RItem.lit '.'])
      (" in ".data ++ ((a ++ '.' :: b) ++ ['.'])) =
      some [String.mk (a ++ '.' :: b)] := by
    rw [matchItems_lits_append]
    exact h_star
  have h_colon : matchItems
      (RItem.grp (GrpKind.plusCls CharCls.digitColon) ::
        (" in ".data.map RItem.lit ++ [RItem.grp GrpKind.star, RItem.lit '.']))
      ("14:00".data ++ (' ' :: ("in ".data ++ ((a ++ '.' :: b) ++ ['.'])))) =
      some ["14:00", String.mk (a ++ '.' :: b)] :=
    matchItems_plus_front CharCls.digitColon _ "14:00".data ' '
      ("in ".data ++ ((a ++ '.' :: b) ++ ['.'])) _
      (by decide) (by decide) (by decide) h_in
  have h_at : matchItems
      (" at ".data.map RItem.lit ++
        (RItem.grp (GrpKind.plusCls CharCls.digitColon) ::
          (" in ".data.map RItem.lit ++ [RItem.grp GrpKind.star, RItem.lit '.'])))
      (" at ".data ++ ("14:00".data ++ (' ' :: ("in ".data ++ ((a ++ '.' :: b) ++ ['.']))))) =
      some ["14:00", String.mk (a ++ '.' :: b)] := by
    rw [matchItems_lits_append]
    exact h_colon
  exact matchItems_plus_front CharCls.digitDash _ "2025-02-15".data ' '
    ("at ".data ++ ("14:00".data ++ (' ' :: ("in ".data ++ ((a ++ '.' :: b) ++ ['.']))))) _
    (by decide) (by decide) (by decide) h_at

/-- Rule 5 on a report query containing a second copy of the literal
` department.`: the `(.*)` capture runs to the last copy. -/
theorem issue_match (a b : List Char)
    (ha : a.all (fun c => c ≠ '\n') = true) (hb : b.all (fun c => c ≠ '\n') = true) :
    matchItems issueRule.pattern
      ("Report office issue ".data ++ ("45321".data ++ (' ' :: ("for the ".data ++
        ((a ++ (" department.".data ++ b)) ++ " department.".data))))) =
      some ["45321", String.mk (a ++ (" department.".data ++ b))] := by
  rw [show issueRule.pattern =
        "Report office issue ".data.map RItem.lit ++
          (.grp (.plusCls .digit) :: (" for the ".data.map RItem.lit ++
            (.grp .star :: " department.".data.map RItem.lit))) from rfl,
      matchItems_lits_append]
  have h_star : matchItems
      (RItem.grp GrpKind.star :: " department.".data.map RItem.lit)
      ((a ++ (" department.".data ++ b)) ++ " department.".data) =
      some [String.mk (a ++ (" department.".data ++ b))] :=
    matchItems_star_lits (a ++ (" department.".data ++ b)) " department.".data
      (by rw [List.all_append, ha, List.all_append, hb]; decide) (by decide) (by decide)
  have h_for : matchItems
      (" for the ".data.map RItem.lit ++
        (RItem.grp GrpKind.star :: " department.".data.map RItem.lit))
      (" for the ".data ++ ((a ++ (" department.".data ++ b)) ++ " department.".data)) =
      some [String.mk (a ++ (" department.".data ++ b))] := by
    rw [matchItems_lits_append]
    exact h_star
  exact matchItems_plus_front CharCls.digit _ "45321".data ' '
    ("for the ".data ++ ((a ++ (" department.".data ++ b)) ++ " department.".data)) _
    (by decide) (by decide) (by decide) h_for

/-! ### Trailing characters never break a prefix match -/

theorem takeWhile_length_append_ge (p : Char → Bool) :
    ∀ s t : List Char, (s.takeWhile p).length ≤ ((s ++ t).takeWhile p).length := by
  intro s
  induction s with
  | nil => intro t; simp
  | cons c s2 ih =>
      intro t
      rw [List.cons_append, List.takeWhile_cons, List.takeWhile_cons]
      by_cases hc : p c
      · simp only [if_pos hc, List.length_cons]
        exact Nat.succ_le_succ (ih t)
      · simp [if_neg hc]

theorem candLens_mem_of_le {lo : Nat} :
    ∀ {hi x : Nat}, lo ≤ x → x ≤ hi → x ∈ candLens lo hi := by
  intro hi
  induction hi with
  | zero =>
      intro x h1 h2
      have hx : x = 0 := Nat.le_zero.mp h2
      subst hx
      have hlo : lo = 0 := Nat.le_zero.mp h1
      simp [candLens, hlo]
  | succ n ih =>
      intro x h1 h2
      have hlo : lo ≤ n + 1 := Nat.le_trans h1 h2
      rw [candLens, if_pos hlo]
      rcases Nat.lt_or_ge x (n + 1) with hlt | hge
      · exact List.mem_cons_of_mem _ (ih h1 (by omega))
      · have : x = n + 1 := by omega
        subst this
        exact List.mem_cons_self _ _

theorem findSome_ne_none_of_mem {α β : Type} {f : α → Option β} :
    ∀ {l : List α} {x : α}, x ∈ l → f x ≠ none → l.findSome? f ≠ none := by
  intro l
  induction l with
  | nil => intro x hx; simp at hx
  | cons a as ih =>
      intro x hx hfx
      rw [List.findSome?_cons]
      cases hfa : f a with
      | some b => simp
      | none =>
          rcases List.mem_cons.mp hx with rfl | hmem
          · exact absurd hfa hfx
          · exact ih hmem hfx

/-- Appending trailing characters never turns a successful prefix match
into a failure: the matcher only ever requires a prefix of the input. -/
theorem matchItems_append_some :
    ∀ (pat : List RItem) (s : List Char) (caps : List String) (t : List Char),
    matchItems pat s = some caps → ∃ caps2, matchItems pat (s ++ t) = some caps2 := by
  intro pat
  induction pat with
  | nil => intro s caps t _; exact ⟨[], rfl⟩
  | cons it rest ih =>
      intro s caps t h
      cases it with
      | lit c =>
          cases s with
          | nil => simp [matchItems] at h
          | cons d s2 =>
              simp only [matchItems] at h
              by_cases hdc : d = c
              · subst hdc
                rw [if_pos rfl] at h
                obtain ⟨caps2, h2⟩ := ih s2 caps t h
                exact ⟨caps2, by rw [List.cons_append, matchItems_lit_eq]; exact h2⟩
              · rw [if_neg hdc] at h
                exact absurd h (by simp)
      | grp g =>
          cases g with
          | exactly cls n =>
              simp only [matchItems] at h
              by_cases hn : n ≤ clsRun cls s
              · rw [if_pos hn] at h
                rcases Option.map_eq_some'.mp h with ⟨caps1, hm1, _⟩
                have hsl : n ≤ s.length := Nat.le_trans hn (clsRun_le_length cls s)
                obtain ⟨caps2, h2⟩ := ih (s.drop n) caps1 t hm1
                have hn2 : n ≤ clsRun cls (s ++ t) :=
                  Nat.le_trans hn (takeWhile_length_append_ge _ s t)
                refine ⟨String.mk ((s ++ t).take n) :: caps2, ?_⟩
                simp only [matchItems, if_pos hn2]
                rw [List.drop_append_of_le_length hsl, h2]
                rfl
              · rw [if_neg hn] at h
                exact absurd h (by simp)
          | plusCls cls =>
              simp only [matchItems] at h
              obtain ⟨len, hlen, hf⟩ := findSome_eq_some_mem h
              obtain ⟨h1, h2⟩ := mem_candLens hlen
              rcases Option.map_eq_some'.mp hf with ⟨caps1, hm1, _⟩
              have hsl : len ≤ s.length := Nat.le_trans h2 (clsRun_le_length cls s)
              obtain ⟨caps2, hrec⟩ := ih (s.drop len) caps1 t hm1
              have hmem : len ∈ candLens 1 (clsRun cls (s ++ t)) :=
                candLens_mem_of_le h1
                  (Nat.le_trans h2 (takeWhile_length_append_ge _ s t))
              have hne : (candLens 1 (clsRun cls (s ++ t))).findSome? (fun len =>
                  (matchItems rest ((s ++ t).drop len)).map
                    (fun caps => String.mk ((s ++ t).take len) :: caps)) ≠ none := by
                apply findSome_ne_none_of_mem hmem
                rw [List.drop_append_of_le_length hsl, hrec]
                simp
              obtain ⟨caps2, hsome⟩ := Option.ne_none_iff_exists'.mp hne
              exact ⟨caps2, by simpa only [matchItems] using hsome⟩
          | star =>
              simp only [matchItems] at h
              obtain ⟨len, hlen, hf⟩ := findSome_eq_some_mem h
              obtain ⟨h1, h2⟩ := mem_candLens hlen
              rcases Option.map_eq_some'.mp hf with ⟨caps1, hm1, _⟩
              have hsl : len ≤ s.length := Nat.le_trans h2 (takeWhile_length_le _ s)
              obtain ⟨caps2, hrec⟩ := ih (s.drop len) caps1 t hm1
              have hmem : len ∈ candLens 0 (dotRun (s ++ t)) :=
                candLens_mem_of_le h1
                  (Nat.le_trans h2 (takeWhile_length_append_ge _ s t))
              have hne : (candLens 0 (dotRun (s ++ t))).findSome? (fun len =>
                  (matchItems rest ((s ++ t).drop len)).map
                    (fun caps => String.mk ((s ++ t).take len) :: caps)) ≠ none := by
                apply findSome_ne_none_of_mem hmem
                rw [List.drop_append_of_le_length hsl, hrec]
                simp
              obtain ⟨caps2, hsome⟩ := Option.ne_none_iff_exists'.mp hne
              exact ⟨caps2, by simpa only [matchItems] using hsome⟩

/-! ### The claims -/

/-- Claim C1, counterexample: an empty-string query is NOT rejected with
HTTP 400 before resolution; it reaches the rule scan, matches nothing and
is answered 404. -/
theorem claim_C1_counterexample :
    execute_query FUNCTION_RULES (some "") =
      .error ⟨404, "No matching function found for the query"⟩ ∧
    execute_query FUNCTION_RULES (some "") ≠
      .error ⟨400, "Missing query parameter 'q'"⟩ := by
  exact ⟨by decide, by decide⟩

/-- Claim C1, amended: only a request whose `q` parameter is absent is
rejected with HTTP 400 "Missing query parameter 'q'" before `resolve`; an
empty-string query is passed to `resolve`, matches no rule, and is
answered HTTP 404. -/
theorem claim_C1 :
    (∀ rules : List Rule,
      execute_query rules none = .error ⟨400, "Missing query parameter 'q'"⟩) ∧
    execute_query FUNCTION_RULES (some "") =
      .error ⟨404, "No matching function found for the query"⟩ :=
  ⟨fun _ => rfl, by decide⟩

/-- Claim C2: matching is prefix matching, not full-string matching:
appending trailing characters to a successfully matched input never
prevents the match, and in particular the ticket query with trailing
text "Please hurry." resolves exactly as the bare ticket query does, to
rule 1's success. -/
theorem claim_C2 :
    (∀ (pat : List RItem) (s : List Char) (caps : List String) (t : List Char),
      matchItems pat s = some caps → ∃ caps2, matchItems pat (s ++ t) = some caps2) ∧
    resolve FUNCTION_RULES "What is the status of ticket 83742? Please hurry." =
      .success "get_ticket_status" [("ticket_id", .int 83742)] ∧
    resolve FUNCTION_RULES "What is the status of ticket 83742? Please hurry." =
      resolve FUNCTION_RULES "What is the status of ticket 83742?" := by
  exact ⟨matchItems_append_some, by decide, by decide⟩

/-- Claim C2, witness: rule 1's pattern still matches once the suffix
" Please hurry." is appended to the bare ticket query. -/
theorem claim_C2_witness :
    ∃ caps2, matchItems ticketRule.pattern
      ("What is the status of ticket 83742?".data ++ " Please hurry.".data) =
      some caps2 :=
  claim_C2.1 ticketRule.pattern "What is the status of ticket 83742?".data
    ["83742"] " Please hurry.".data (by decide)

/-- Claim C3: first-match-wins: when no rule of the initial segment `t1`
matches and `r` matches, the scan returns `r`'s result (the result over
the whole table equals the result over `[r]` alone) and the rules after
`r` are never consulted (replacing them changes nothing). -/
theorem claim_C3 (t1 t2 t2' : List Rule) (r : Rule) (q : String)
    (h1 : ∀ r1 ∈ t1, matchItems r1.pattern q.data = none)
    (h2 : matchItems r.pattern q.data ≠ none) :
    resolve (t1 ++ r :: t2) q = resolve [r] q ∧
    resolve (t1 ++ r :: t2) q = resolve (t1 ++ r :: t2') q := by
  cases hm : matchItems r.pattern q.data with
  | none => exact absurd hm h2
  | some caps =>
      have e1 := resolve_append_first_match t1 t2 r q h1
      have e2 := resolve_append_first_match t1 t2' r q h1
      have c1 := resolve_cons_match t2 r q caps hm
      have c2 := resolve_cons_match t2' r q caps hm
      have c0 := resolve_cons_match [] r q caps hm
      refine ⟨?_, ?_⟩
      · rw [e1, c1, c0]
      · rw [e1, c1, e2, c2]

/-- Claim C3, witness: on the default ticket query, with a non-matching
rule ahead and an overlapping catch-all rule behind, the first matching
rule (rule 1) wins and the trailing rule is irrelevant. -/
theorem claim_C3_witness :
    resolve ([expenseRule] ++ ticketRule :: [overlapRule])
        "What is the status of ticket 83742?" =
      resolve [ticketRule] "What is the status of ticket 83742?" ∧
    resolve ([expenseRule] ++ ticketRule :: [overlapRule])
        "What is the status of ticket 83742?" =
      resolve ([expenseRule] ++ ticketRule :: [])
        "What is the status of ticket 83742?" :=
  claim_C3 [expenseRule] [overlapRule] [] ticketRule _ (by decide) (by decide)

/-- Claim C4: on every successful resolution the response is 200 with
body `{name, arguments}` where `arguments` is the string produced by
JSON-serializing the argument mapping (double-encoded), and the mapping's
keys are exactly the matched rule's `argNames`, in order. -/
theorem claim_C4 (rules : List Rule) (q fn : String) (args : List (String × PyVal))
    (h : resolve rules q = .success fn args) :
    execute_query rules (some q) = .ok ⟨fn, jsonDumps args⟩ ∧
    ∃ r ∈ rules, r.functionName = fn ∧ args.map Prod.fst = r.argNames := by
  refine ⟨by simp [execute_query, h], ?_⟩
  induction rules with
  | nil => exact absurd h (by simp [resolve])
  | cons r rest ih =>
      cases hm : matchItems r.pattern q.data with
      | none =>
          rw [show resolve (r :: rest) q = resolve rest q from by simp [resolve, hm]] at h
          obtain ⟨r2, hr2, hfn, hkeys⟩ := ih h
          exact ⟨r2, List.mem_cons_of_mem r hr2, hfn, hkeys⟩
      | some caps =>
          rw [resolve_cons_match rest r q caps hm] at h
          cases hc : coerceArgs r.argNames r.argTypes caps with
          | none => rw [hc] at h; simp at h
          | some args2 =>
              rw [hc] at h
              simp only [MatchResult.success.injEq] at h
              exact ⟨r, List.mem_cons_self r rest, h.1,
                by rw [← h.2]; exact coerceArgs_keys hc⟩

/-- Claim C4, witness: the ticket query's 200 response carries
`get_ticket_status` and the double-encoded arguments string, whose single
key is `ticket_id`. -/
theorem claim_C4_witness :
    execute_query FUNCTION_RULES (some "What is the status of ticket 83742?") =
      .ok ⟨"get_ticket_status", jsonDumps [("ticket_id", PyVal.int 83742)]⟩ ∧
    ∃ r ∈ FUNCTION_RULES, r.functionName = "get_ticket_status" ∧
      ([("ticket_id", PyVal.int 83742)].map Prod.fst = r.argNames) :=
  claim_C4 FUNCTION_RULES _ _ _ (by decide)

/-- Claim C5: the ticket query resolves to Success with
`get_ticket_status` and `ticket_id` coerced to the integer 83742. -/
theorem claim_C5 :
    resolve FUNCTION_RULES "What is the status of ticket 83742?" =
      .success "get_ticket_status" [("ticket_id", PyVal.int 83742)] := by
  decide

/-- Claim C6: the meeting query resolves to Success with the three string
arguments, untrimmed, in declaration order. -/
theorem claim_C6 :
    resolve FUNCTION_RULES "Schedule a meeting on 2025-02-15 at 14:00 in Room A." =
      .success "schedule_meeting"
        [("date", PyVal.str "2025-02-15"), ("time", PyVal.str "14:00"),
         ("meeting_room", PyVal.str "Room A")] := by
  decide

/-- Claim C7: a query matched by no rule's pattern resolves to
Failure(NoMatch) and is answered HTTP 404 with the fixed message. -/
theorem claim_C7 (rules : List Rule) (q : String)
    (h : ∀ r ∈ rules, matchItems r.pattern q.data = none) :
    resolve rules q = .failure .noMatch ∧
    execute_query rules (some q) =
      .error ⟨404, "No matching function found for the query"⟩ := by
  have hres : resolve rules q = .failure .noMatch := by
    induction rules with
    | nil => rfl
    | cons r rest ih =>
        rw [show resolve (r :: rest) q = resolve rest q from by
          simp [resolve, h r (List.mem_cons_self r rest)]]
        exact ih (fun r2 hr2 => h r2 (List.mem_cons_of_mem r hr2))
  exact ⟨hres, by simp [execute_query, hres]⟩

/-- Claim C7, witness: "Make me a sandwich." matches no rule, resolves to
NoMatch and is answered 404. -/
theorem claim_C7_witness :
    resolve FUNCTION_RULES "Make me a sandwich." = .failure .noMatch ∧
    execute_query FUNCTION_RULES (some "Make me a sandwich.") =
      .error ⟨404, "No matching function found for the query"⟩ :=
  claim_C7 FUNCTION_RULES _ (by decide)

/-- Claim C8: when the first rule whose pattern matches has a failing
coercion loop (a coercion fails at some position, or the captures run out
before the declared names), the scan stops with Failure(TypeMismatch) —
later rules are not consulted — and the handler answers HTTP 400
"Parameter type mismatch". -/
theorem claim_C8 (t1 t2 t2' : List Rule) (r : Rule) (q : String) (caps : List String)
    (h1 : ∀ r1 ∈ t1, matchItems r1.pattern q.data = none)
    (h2 : matchItems r.pattern q.data = some caps)
    (h3 : coerceArgs r.argNames r.argTypes caps = none) :
    resolve (t1 ++ r :: t2) q = .failure .typeMismatch ∧
    execute_query (t1 ++ r :: t2) (some q) =
      .error ⟨400, "Parameter type mismatch"⟩ ∧
    resolve (t1 ++ r :: t2) q = resolve (t1 ++ r :: t2') q := by
  have hres : resolve (t1 ++ r :: t2) q = .failure .typeMismatch := by
    rw [resolve_append_first_match t1 t2 r q h1, resolve_cons_match t2 r q caps h2, h3]
  have hres2 : resolve (t1 ++ r :: t2') q = .failure .typeMismatch := by
    rw [resolve_append_first_match t1 t2' r q h1, resolve_cons_match t2' r q caps h2, h3]
  exact ⟨hres, by simp [execute_query, hres], by rw [hres, hres2]⟩

/-- Claim C8, witness: a custom rule coercing a `(.*)` capture to integer
fails on "abc": TypeMismatch, HTTP 400, and the rule behind it is never
consulted. -/
theorem claim_C8_witness :
    resolve ([] ++ starIntRule :: [ticketRule]) "abc" = .failure .typeMismatch ∧
    execute_query ([] ++ starIntRule :: [ticketRule]) (some "abc") =
      .error ⟨400, "Parameter type mismatch"⟩ ∧
    resolve ([] ++ starIntRule :: [ticketRule]) "abc" =
      resolve ([] ++ starIntRule :: []) "abc" :=
  claim_C8 [] [ticketRule] [] starIntRule "abc" ["abc"]
    (by simp) (by decide) (by decide)

/-- Claim C9: under the default rule table integer coercion can never
fail: every query either resolves to NoMatch or to a Success — the
TypeMismatch branch is unreachable for every input. -/
theorem claim_C9 (q : String) :
    resolve FUNCTION_RULES q = .failure .noMatch ∨
    ∃ fn args, resolve FUNCTION_RULES q = .success fn args := by
  apply resolve_success_cases
  intro r hr caps hm
  simp only [FUNCTION_RULES, List.mem_cons, List.not_mem_nil, or_false] at hr
  rcases hr with rfl | rfl | rfl | rfl | rfl
  · exact ticket_no_mismatch _ _ hm
  · exact meeting_no_mismatch _ _ hm
  · exact expense_no_mismatch _ _ hm
  · exact bonus_no_mismatch _ _ hm
  · exact issue_no_mismatch _ _ hm

/-- Claim C10: the `(.*)` captures of rules 2 and 5 are greedy up to the
last terminator on the line: in a schedule query whose text after "in "
holds an inner period, `meeting_room` extends to just before the last
period (not the first), and in a report query holding a second copy of
" department." the `department` capture extends to just before the last
copy. -/
theorem claim_C10 (a b : String)
    (ha : a.data.all (fun c => c ≠ '\n') = true)
    (hb : b.data.all (fun c => c ≠ '\n') = true) :
    resolve FUNCTION_RULES
        ("Schedule a meeting on 2025-02-15 at 14:00 in " ++ a ++ "." ++ b ++ ".") =
      .success "schedule_meeting"
        [("date", PyVal.str "2025-02-15"), ("time", PyVal.str "14:00"),
         ("meeting_room", PyVal.str (a ++ "." ++ b))] ∧
    resolve FUNCTION_RULES
        ("Report office issue 45321 for the " ++ a ++ " department." ++ b ++ " department.") =
      .success "report_office_issue"
        [("issue_code", PyVal.int 45321),
         ("department", PyVal.str (a ++ " department." ++ b))] := by
  constructor
  · have hdata :
        ("Schedule a meeting on 2025-02-15 at 14:00 in " ++ a ++ "." ++ b ++ ".").data =
        "Schedule a meeting on ".data ++ ("2025-02-15".data ++ (' ' :: ("at ".data ++
          ("14:00".data ++ (' ' :: ("in ".data ++ ((a.data ++ '.' :: b.data) ++ ['.'])))))))  := by
      simp only [String.data_append, List.append_assoc, List.cons_append,
        List.singleton_append]
      rfl
    have harg : String.mk (a.data ++ '.' :: b.data) = a ++ "." ++ b := by
      apply String.ext
      simp only [String.data_append, List.append_assoc, List.cons_append,
        List.singleton_append]
      rfl
    have hm : matchItems meetingRule.pattern
        ("Schedule a meeting on 2025-02-15 at 14:00 in " ++ a ++ "." ++ b ++ ".").data =
        some ["2025-02-15", "14:00", a ++ "." ++ b] := by
      rw [hdata, ← harg]
      exact meeting_match a.data b.data ha hb
    have hfail : ∀ r1 ∈ [ticketRule], matchItems r1.pattern
        ("Schedule a meeting on 2025-02-15 at 14:00 in " ++ a ++ "." ++ b ++ ".").data =
        none := by
      intro r1 hr1
      rw [List.mem_singleton] at hr1
      subst hr1
      rw [hdata]
      apply matchItems_lit_ne
      decide
    rw [show FUNCTION_RULES = [ticketRule] ++ meetingRule ::
          [expenseRule, bonusRule, issueRule] from rfl,
        resolve_append_first_match [ticketRule] [expenseRule, bonusRule, issueRule]
          meetingRule _ hfail,
        resolve_cons_match [expenseRule, bonusRule, issueRule] meetingRule _ _ hm]
    rfl
  · have hdata :
        ("Report office issue 45321 for the " ++ a ++ " department." ++ b ++
          " department.").data =
        "Report office issue ".data ++ ("45321".data ++ (' ' :: ("for the ".data ++
          ((a.data ++ (" department.".data ++ b.data)) ++ " department.".data)))) := by
      simp only [String.data_append, List.append_assoc, List.cons_append,
        List.singleton_append]
      rfl
    have harg : String.mk (a.data ++ (" department.".data ++ b.data)) =
        a ++ " department." ++ b := by
      apply String.ext
      simp only [String.data_append, List.append_assoc, List.cons_append,
        List.singleton_append]
    have hm : matchItems issueRule.pattern
        ("Report office issue 45321 for the " ++ a ++ " department." ++ b ++
          " department.").data =
        some ["45321", a ++ " department." ++ b] := by
      rw [hdata, ← harg]
      exact issue_match a.data b.data ha hb
    have hfail : ∀ r1 ∈ [ticketRule, meetingRule, expenseRule, bonusRule],
        matchItems r1.pattern
          ("Report office issue 45321 for the " ++ a ++ " department." ++ b ++
            " department.").data = none := by
      intro r1 hr1
      rw [hdata]
      simp only [List.mem_cons, List.not_mem_nil, or_false] at hr1
      rcases hr1 with rfl | rfl | rfl | rfl <;> (apply matchItems_lit_ne; decide)
    rw [show FUNCTION_RULES = [ticketRule, meetingRule, expenseRule, bonusRule] ++
          issueRule :: [] from rfl,
        resolve_append_first_match [ticketRule, meetingRule, expenseRule, bonusRule] []
          issueRule _ hfail,
        resolve_cons_match [] issueRule _ _ hm]
    rfl

/-- Claim C10, witness: the schedule query ending "in Room A. Thanks."
captures `meeting_room = "Room A. Thanks"` (to the last period), and the
analogous report query captures `department` up to the last copy of
" department.". -/
theorem claim_C10_witness :
    (resolve FUNCTION_RULES
        ("Schedule a meeting on 2025-02-15 at 14:00 in " ++ "Room A" ++ "." ++
          " Thanks" ++ ".") =
      .success "schedule_meeting"
        [("date", PyVal.str "2025-02-15"), ("time", PyVal.str "14:00"),
         ("meeting_room", PyVal.str ("Room A" ++ "." ++ " Thanks"))]) ∧
    (resolve FUNCTION_RULES
        ("Report office issue 45321 for the " ++ "Room A" ++ " department." ++
          " Thanks" ++ " department.") =
      .success "report_office_issue"
        [("issue_code", PyVal.int 45321),
         ("department", PyVal.str ("Room A" ++ " department." ++ " Thanks"))]) :=
  claim_C10 "Room A" " Thanks" (by decide) (by decide)

end TechNova
